import Mathlib

/-!
Shallow embedding of the `tui-additions` framework core
(`src/framework/state.rs`, `src/framework/framework.rs`,
`src/framework/frameworkdata.rs`, `src/framework/frameworkhistory.rs`)
together with proofs of the specification claims about it.

Machine integers (`usize`, `u16`) are modelled as `Nat`; wrapping
arithmetic is written explicitly with `% usizeSize` where the source can
overflow.  Code paths that panic in Rust (the `unreachable!` branch and
the `usize` underflow of `len() - 1` on an empty selectables row inside
`CursorState::move_check`) are modelled by an `Option` result, `none`
standing for the abnormal exit.  Item hooks are modelled as constant
functions, mirroring the default implementations of the `FrameworkItem`
trait (`src/framework/item.rs`): `selectable` is `true`, `select` and
`deselect` accept, `mouse_event` reports unhandled.  The heterogeneous
`CloneMap` context store is modelled by an arbitrary type parameter `σ`,
since the claims only ever copy and compare whole store tiers.
-/

deriving instance DecidableEq for Except

namespace TuiAdditions

/-- Size of the 64-bit `usize` type: `usize` arithmetic wraps modulo this. -/
def usizeSize : Nat := 2 ^ 64

/-- The constant `usize::MAX`. -/
def usizeMax : Nat := usizeSize - 1

/-- Errors returned by the framework (`FrameworkError` in framework.rs). -/
inductive FrameworkError where
  | MoveSelected
  | CursorStateMismatch
  | NoSuchSave
deriving DecidableEq

/-- Direction of cursor movement (`FrameworkDirection` in state.rs). -/
inductive FrameworkDirection where
  | Up
  | Down
  | Left
  | Right
deriving DecidableEq

/-- A rectangle of cells (`ratatui::layout::Rect`, `u16` fields). -/
structure Rect where
  x : Nat
  y : Nat
  width : Nat
  height : Nat
deriving DecidableEq

/-- Whether two rectangles intersect (`ratatui::layout::Rect::intersects`). -/
def Rect.intersects (a b : Rect) : Bool :=
  decide (a.x < b.x + b.width) && decide (b.x < a.x + a.width) &&
    decide (a.y < b.y + b.height) && decide (b.y < a.y + a.height)

/-- Sizing rule for a row or an item (`ratatui::layout::Constraint`). -/
inductive Constraint where
  | Length (n : Nat)
  | Percentage (n : Nat)
  | Ratio (num den : Nat)
  | Max (n : Nat)
  | Min (n : Nat)
deriving DecidableEq

/-- Resolve a constraint against an available span
(`Constraint::apply` from the tui layout crate). -/
def Constraint.apply (c : Constraint) (length : Nat) : Nat :=
  match c with
  | .Length l => Nat.min length l
  | .Percentage p => length * p / 100
  | .Ratio num den => length * num / den
  | .Max m => Nat.min length m
  | .Min m => Nat.max length m

/-- Models an item implementing the external `FrameworkItem` trait whose
hooks are constant functions; the field defaults are exactly the trait's
default implementations (item.rs). -/
structure Item where
  selectable : Bool := true
  selectAccept : Bool := true
  deselectAccept : Bool := true
  mouseHandled : Bool := false
deriving DecidableEq

/-- An item together with its width rule (`RowItem` in state.rs). -/
structure RowItem where
  item : Item
  width : Constraint
deriving DecidableEq

/-- A row of items (`Row` in state.rs). -/
structure Row where
  items : List RowItem
  centered : Bool
  height : Constraint
deriving DecidableEq

/-- The grid: layout of all items (`State` in state.rs, a tuple struct
around `Vec<Row>`; the single field is named `rows` here). -/
structure State where
  rows : List Row
deriving DecidableEq

/-- Default `RowItem` used for the out-of-bounds case of indexing; the
source panics there, and every theorem below only indexes in bounds. -/
def defaultRowItem : RowItem := ⟨{}, .Length 0⟩

/-- Default `Row` used for the out-of-bounds case of indexing; the source
panics there, and every theorem below only indexes in bounds. -/
def defaultRow : Row := ⟨[], false, .Length 0⟩

/-- Inner loop of `State::selectables`: the coordinate pairs `(x, y)` of
the selectable items of one row, `x` starting from the given counter. -/
def rowSelectables (y : Nat) : Nat → List RowItem → List (Nat × Nat)
  | _, [] => []
  | x, it :: rest =>
    if it.item.selectable then (x, y) :: rowSelectables y (x + 1) rest
    else rowSelectables y (x + 1) rest

/-- Outer loop of `State::selectables`: rows whose selectable list is
empty are not pushed; `y` counts every grid row, skipped or not. -/
def selectablesAux : Nat → List Row → List (List (Nat × Nat))
  | _, [] => []
  | y, row :: rest =>
    if (rowSelectables y 0 row.items).isEmpty then selectablesAux (y + 1) rest
    else rowSelectables y 0 row.items :: selectablesAux (y + 1) rest

/-- `State::selectables` (state.rs lines 33-49). -/
def State.selectables (s : State) : List (List (Nat × Nat)) :=
  selectablesAux 0 s.rows

/-- Restates the spec's description of the selectables index: for each
grid row (in row order), the coordinates of precisely its selectable
items in column order, rows with no selectable item omitted.  This is
the definition written from the spec's words, to be compared with
`State.selectables`, which is written from the source. -/
def rowSelectablesSpec (y : Nat) (row : Row) : List (Nat × Nat) :=
  row.items.enum.filterMap fun q =>
    if q.2.item.selectable then some (q.1, y) else none

/-- Spec-side counterpart of `State.selectables`; see
`rowSelectablesSpec`. -/
def State.selectablesSpec (s : State) : List (List (Nat × Nat)) :=
  (s.rows.enum.map fun p => rowSelectablesSpec p.1 p.2).filter fun r => !r.isEmpty

/-- Bounds check on the generated selectables index, as a decidable
predicate: no empty row, and every coordinate pair addresses an existing
grid slot holding a selectable item. -/
def selectablesWF (s : State) : Bool :=
  s.selectables.all fun r =>
    !r.isEmpty && r.all fun xy =>
      decide (xy.2 < s.rows.length) &&
        decide (xy.1 < (s.rows.getD xy.2 defaultRow).items.length) &&
        (((s.rows.getD xy.2 defaultRow).items.getD xy.1 defaultRowItem).item.selectable)

/-- Models the external `ratatui` `Layout::split` in the legacy fill
mode this crate relies on: every constraint in turn receives its
`apply` length resolved against the full span (clamped to the space
still remaining), and the final constraint absorbs all remaining
space.  Returns the list of segment lengths, one per constraint. -/
def splitLengths (total : Nat) : Nat → List Constraint → List Nat
  | _, [] => []
  | rem, [_] => [rem]
  | rem, c :: c2 :: cs =>
    let w := Nat.min (c.apply total) rem
    w :: splitLengths total (rem - w) (c2 :: cs)

/-- Lay segment lengths out left to right inside a horizontal band. -/
def stackH (band : Rect) : Nat → List Nat → List Rect
  | _, [] => []
  | x0, w :: ws => ⟨x0, band.y, w, band.height⟩ :: stackH band (x0 + w) ws

/-- Lay segment lengths out top to bottom inside an area. -/
def stackV (area : Rect) : Nat → List Nat → List Rect
  | _, [] => []
  | y0, h :: hs => ⟨area.x, y0, area.width, h⟩ :: stackV area (y0 + h) hs

/-- Horizontal `Layout::split` of a band: one rectangle per constraint. -/
def layoutSplitH (band : Rect) (cs : List Constraint) : List Rect :=
  stackH band band.x (splitLengths band.width band.width cs)

/-- Vertical `Layout::split` of an area: one rectangle per constraint. -/
def layoutSplitV (area : Rect) (cs : List Constraint) : List Rect :=
  stackV area area.y (splitLengths area.height area.height cs)

/-- `State::get_chunks` (state.rs lines 52-104): split the area
vertically by the row heights between two zero-length boundary bands,
then split each row band horizontally by the item widths between a
leading padding band (zero, or the centering padding
`(width - sum of applied item widths) / 2`) and a trailing zero-length
band; the boundary bands are dropped from the result.  The `u16`
subtraction inside the centering padding is modelled by truncated `Nat`
subtraction; every theorem about it assumes the sum fits.  `rowChunks`
is the body of the per-row closure of `get_chunks`. -/
def rowChunks (area band : Rect) (row : Row) : List Rect :=
  ((layoutSplitH band
    ((if row.centered then
        Constraint.Length ((area.width - (row.items.map fun it => it.width.apply area.width).sum) / 2)
      else Constraint.Length 0) ::
      (row.items.map RowItem.width ++ [Constraint.Length 0]))).drop 1).take row.items.length

def State.get_chunks (s : State) (area : Rect) : List (List Rect) :=
  ((((layoutSplitV area
      (Constraint.Length 0 :: (s.rows.map Row.height ++ [Constraint.Length 0]))).drop 1).take
        s.rows.length).zip s.rows).map fun p => rowChunks area p.1 p.2

/-- `State::get` (state.rs line 107): the item at grid coordinates
`(x, y)`; the source indexes directly and panics out of bounds, the
defaults here are never reached under the in-bounds hypotheses used
below. -/
def State.get (s : State) (x y : Nat) : Item :=
  ((s.rows.getD y defaultRow).items.getD x defaultRowItem).item

/-- The cursor state machine (`CursorState` in state.rs); coordinates
are positions inside the selectables index, not grid coordinates. -/
inductive CursorState where
  | None
  | Hover (x y : Nat)
  | Selected (x y : Nat)
deriving DecidableEq

/-- `CursorState::is_selected`. -/
def CursorState.is_selected : CursorState → Bool
  | .Selected _ _ => true
  | _ => false

/-- `CursorState::is_hover`. -/
def CursorState.is_hover : CursorState → Bool
  | .Hover _ _ => true
  | _ => false

/-- `CursorState::is_none`. -/
def CursorState.is_none : CursorState → Bool
  | .None => true
  | _ => false

/-- `CursorState::select` (state.rs lines 153-160); the pair returns the
`Result` together with the state after the call (`&mut self` in the
source), which is unchanged on error. -/
def CursorState.select : CursorState → Except FrameworkError Unit × CursorState
  | .Hover x y => (.ok (), .Selected x y)
  | c => (.error .CursorStateMismatch, c)

/-- `CursorState::deselect` (state.rs lines 163-170). -/
def CursorState.deselect : CursorState → Except FrameworkError Unit × CursorState
  | .Selected x y => (.ok (), .Hover x y)
  | c => (.error .CursorStateMismatch, c)

/-- `CursorState::to_hover`. -/
def CursorState.to_hover (location : Nat × Nat) : CursorState :=
  .Hover location.1 location.2

/-- `CursorState::to_selected`. -/
def CursorState.to_selected (location : Nat × Nat) : CursorState :=
  .Selected location.1 location.2

/-- `CursorState::selectables_to_coors` (state.rs lines 200-207):
translate index coordinates into the stored grid coordinates; the
source indexes directly and panics out of bounds, the `(0, 0)` default
here is never reached under the in-bounds hypotheses used below. -/
def CursorState.selectables_to_coors (selectables : List (List (Nat × Nat)))
    (location : Nat × Nat) : Nat × Nat :=
  (selectables.getD location.2 []).getD location.1 (0, 0)

/-- `CursorState::hover` (state.rs lines 182-189): the grid coordinates
of the hovered item, `none` when not hovering or the index is empty. -/
def CursorState.hover (c : CursorState) (selectables : List (List (Nat × Nat))) :
    Option (Nat × Nat) :=
  match c with
  | .Hover x y =>
    if selectables.isEmpty then none
    else some (CursorState.selectables_to_coors selectables (x, y))
  | _ => none

/-- `CursorState::selected` (state.rs lines 191-198). -/
def CursorState.selected (c : CursorState) (selectables : List (List (Nat × Nat))) :
    Option (Nat × Nat) :=
  match c with
  | .Selected x y =>
    if selectables.isEmpty then none
    else some (CursorState.selectables_to_coors selectables (x, y))
  | _ => none

/-- `CursorState::left` (state.rs lines 250-262): saturating decrement
of the column from `Hover`, jump to the origin from `None`, error from
`Selected`. -/
def CursorState.left : CursorState → Except FrameworkError Unit × CursorState
  | .Hover x y => (.ok (), .Hover (x - 1) y)
  | .None => (.ok (), .Hover 0 0)
  | .Selected x y => (.error .MoveSelected, .Selected x y)

/-- `CursorState::right` (state.rs lines 264-272): wrapping increment of
the column from `Hover`, jump to `Hover(usize::MAX, 0)` from `None`,
error from `Selected`. -/
def CursorState.right : CursorState → Except FrameworkError Unit × CursorState
  | .Hover x y => (.ok (), .Hover ((x + 1) % usizeSize) y)
  | .None => (.ok (), .Hover usizeMax 0)
  | .Selected x y => (.error .MoveSelected, .Selected x y)

/-- `CursorState::up` (state.rs lines 274-286). -/
def CursorState.up : CursorState → Except FrameworkError Unit × CursorState
  | .Hover x y => (.ok (), .Hover x (y - 1))
  | .None => (.ok (), .Hover 0 0)
  | .Selected x y => (.error .MoveSelected, .Selected x y)

/-- `CursorState::down` (state.rs lines 288-296). -/
def CursorState.down : CursorState → Except FrameworkError Unit × CursorState
  | .Hover x y => (.ok (), .Hover x ((y + 1) % usizeSize))
  | .None => (.ok (), .Hover 0 usizeMax)
  | .Selected x y => (.error .MoveSelected, .Selected x y)

/-- The directional dispatch inside `CursorState::move` (the four-way
`match direction`). -/
def CursorState.dirStep (c : CursorState) (direction : FrameworkDirection) :
    Except FrameworkError Unit × CursorState :=
  match direction with
  | .Up => c.up
  | .Down => c.down
  | .Left => c.left
  | .Right => c.right

/-- `CursorState::move_check` (state.rs lines 229-248): clamp a hovering
cursor to the bounds of the selectables index, resetting to `(0, 0)`
when the index is empty.  `none` models the two abnormal exits of the
source: the `unreachable!` on a non-`Hover` cursor, and the `usize`
underflow of `selectables[y].len() - 1` on an empty row (a panic under
debug assertions).  Each source clamp `if a > m { a = m }` is written
`Nat.min a m` here. -/
def CursorState.move_check (selectables : List (List (Nat × Nat))) :
    CursorState → Option CursorState
  | .Hover x y =>
    if selectables.isEmpty then some (.Hover 0 0)
    else if (selectables.getD (Nat.min y (selectables.length - 1)) []).isEmpty then none
    else
      some (.Hover
        (Nat.min x ((selectables.getD (Nat.min y (selectables.length - 1)) []).length - 1))
        (Nat.min y (selectables.length - 1)))
  | _ => none

/-- `CursorState::move` (state.rs lines 212-227): directional step, then
the clamp pass; the error of the step short-circuits (`?`) before the
clamp runs.  `none` models a panic inside the clamp. -/
def CursorState.move (c : CursorState) (direction : FrameworkDirection)
    (selectables : List (List (Nat × Nat))) :
    Option (Except FrameworkError Unit × CursorState) :=
  match c.dirStep direction with
  | (.error e, c1) => some (.error e, c1)
  | (.ok _, c1) => (CursorState.move_check selectables c1).map fun c2 => (.ok (), c2)

/-- The two-tier context store (`FrameworkData` in frameworkdata.rs);
the heterogeneous `CloneMap` tiers are modelled by the parameter `σ`. -/
structure FrameworkData (σ : Type) where
  global : σ
  state : σ
deriving DecidableEq

/-- One history snapshot (`FrameworkHistory` in frameworkhistory.rs):
selectables, the per-state store tier, the grid, and the cursor. -/
structure FrameworkHistory (σ : Type) where
  selectables : List (List (Nat × Nat))
  data : σ
  state : State
  cursor : CursorState
deriving DecidableEq

/-- The orchestrator (`Framework` in framework.rs). -/
structure Framework (σ : Type) where
  selectables : List (List (Nat × Nat))
  data : FrameworkData σ
  state : State
  cursor : CursorState
  history : List (FrameworkHistory σ)
  frame_area : Option Rect
deriving DecidableEq

/-- `Framework::push_history` (framework.rs lines 39-46): push a
structural copy of {selectables, per-state store, grid, cursor} onto
the tail of the history stack. -/
def Framework.push_history {σ : Type} (f : Framework σ) : Framework σ :=
  { f with history := f.history ++ [⟨f.selectables, f.data.state, f.state, f.cursor⟩] }

/-- `Framework::pop_history` (framework.rs lines 49-51). -/
def Framework.pop_history {σ : Type} (f : Framework σ) :
    Option (FrameworkHistory σ) × Framework σ :=
  (f.history.getLast?, { f with history := f.history.dropLast })

/-- `Framework::revert_last_history` (framework.rs lines 54-66): pop the
newest snapshot and restore selectables, per-state store, grid and
cursor from it. -/
def Framework.revert_last_history {σ : Type} (f : Framework σ) :
    Except FrameworkError Unit × Framework σ :=
  match f.history.getLast? with
  | none => (.error .NoSuchSave, f)
  | some h =>
    (.ok (),
      { f with
        selectables := h.selectables
        data := { f.data with state := h.data }
        state := h.state
        cursor := h.cursor
        history := f.history.dropLast })

/-- `Framework::set_state` (framework.rs lines 113-116): replace the
grid and regenerate the selectables index from it. -/
def Framework.set_state {σ : Type} (f : Framework σ) (state : State) : Framework σ :=
  { f with state := state, selectables := state.selectables }

/-- `Framework::move` (framework.rs lines 352-354). -/
def Framework.move {σ : Type} (f : Framework σ) (direction : FrameworkDirection) :
    Option (Except FrameworkError Unit × Framework σ) :=
  (f.cursor.move direction f.selectables).map fun p => (p.1, { f with cursor := p.2 })

/-- `Framework::select` (framework.rs lines 357-369): resolve the
hovered item's grid coordinates, run its `select` hook, and only on an
accept run the cursor's own `select`. -/
def Framework.select {σ : Type} (f : Framework σ) :
    Except FrameworkError Unit × Framework σ :=
  match f.cursor.hover f.selectables with
  | some (x, y) =>
    if (f.state.get x y).selectAccept then
      let p := f.cursor.select
      (p.1, { f with cursor := p.2 })
    else (.ok (), f)
  | none => (.error .CursorStateMismatch, f)

/-- `Framework::deselect` (framework.rs lines 372-384). -/
def Framework.deselect {σ : Type} (f : Framework σ) :
    Except FrameworkError Unit × Framework σ :=
  match f.cursor.selected f.selectables with
  | some (x, y) =>
    if (f.state.get x y).deselectAccept then
      let p := f.cursor.deselect
      (p.1, { f with cursor := p.2 })
    else (.ok (), f)
  | none => (.error .CursorStateMismatch, f)

/-- Inner loop of `Framework::mouse_event` over one selectables row:
find the first entry whose chunk contains the click; `col_no` counts
the entries of the row.  The source indexes `chunks[y][x]` directly and
panics out of bounds; the zero-sized default rectangle here intersects
nothing. -/
def findHitRow (chunks : List (List Rect)) (col row : Nat) (row_no : Nat) :
    Nat → List (Nat × Nat) → Option (Nat × Nat × Nat × Nat)
  | _, [] => none
  | col_no, xy :: rest =>
    if ((chunks.getD xy.2 []).getD xy.1 ⟨0, 0, 0, 0⟩).intersects ⟨col, row, 1, 1⟩ then
      some (col_no, row_no, xy.1, xy.2)
    else findHitRow chunks col row row_no (col_no + 1) rest

/-- Outer loop of `Framework::mouse_event` over the selectables rows. -/
def findHitRows (chunks : List (List Rect)) (col row : Nat) :
    Nat → List (List (Nat × Nat)) → Option (Nat × Nat × Nat × Nat)
  | _, [] => none
  | row_no, rs :: rest =>
    match findHitRow chunks col row row_no 0 rs with
    | some out => some out
    | none => findHitRows chunks col row (row_no + 1) rest

/-- `Framework::mouse_event` (framework.rs lines 243-283): bail out when
no frame has been rendered; otherwise act on the first selectable item
whose chunk contains the click.  Note the source compares the *grid*
coordinates returned by `cursor.selected()` / `cursor.hover()` with the
*index* position `(col_no, row_no)` of the loop — that comparison is
kept verbatim here. -/
def Framework.mouse_event {σ : Type} (f : Framework σ) (col row : Nat) :
    Bool × Framework σ :=
  match f.frame_area with
  | none => (false, f)
  | some area =>
    let chunks := f.state.get_chunks area
    match findHitRows chunks col row 0 f.selectables with
    | some (col_no, row_no, x, y) =>
      if f.cursor.selected f.selectables = some (col_no, row_no) then
        ((f.state.get x y).mouseHandled, f)
      else if f.cursor.hover f.selectables = some (col_no, row_no) then
        let p := f.select
        (p.1.isOk, p.2)
      else
        let p := f.deselect
        (true, { p.2 with cursor := CursorState.to_hover (col_no, row_no) })
    | none =>
      let p := f.deselect
      (true, { p.2 with cursor := CursorState.None })

/-- The invariant claimed for the cursor: in bounds for the selectables
index whenever not `None`, and reset to `(0, 0)` when the index is
empty. -/
def cursorInBounds (sel : List (List (Nat × Nat))) : CursorState → Prop
  | .None => True
  | .Hover x y =>
    if sel = [] then x = 0 ∧ y = 0
    else y < sel.length ∧ x < (sel.getD y []).length
  | .Selected x y =>
    if sel = [] then x = 0 ∧ y = 0
    else y < sel.length ∧ x < (sel.getD y []).length

/-- A sequence of `move` calls as performed by a host: a failed call
leaves the cursor unchanged, a panicking one aborts the run (`none`). -/
def applyMoves (sel : List (List (Nat × Nat))) :
    List FrameworkDirection → CursorState → Option CursorState
  | [], c => some c
  | d :: ds, c =>
    match c.move d sel with
    | none => none
    | some p => applyMoves sel ds p.2

/-- Concrete grid for the walkthrough scenario of the spec: two
selectable items in row 0, one in row 1, hooks at the trait defaults. -/
def demoState : State :=
  ⟨[⟨[⟨{}, .Length 1⟩, ⟨{}, .Length 1⟩], false, .Length 1⟩,
    ⟨[⟨{}, .Length 1⟩], false, .Length 1⟩]⟩

/-- Fresh framework over `demoState`, cursor `None`. -/
def demoFramework : Framework Unit :=
  ⟨demoState.selectables, ⟨(), ()⟩, demoState, .None, [], none⟩

/-- `demoFramework` after `move(Right)`. -/
def demoF1 : Framework Unit := { demoFramework with cursor := .Hover 1 0 }

/-- `demoF1` after `move(Down)`. -/
def demoF2 : Framework Unit := { demoF1 with cursor := .Hover 0 1 }

/-- `demoF2` after `select()`. -/
def demoF3 : Framework Unit := { demoF2 with cursor := .Selected 0 1 }

/-- `demoF3` after `deselect()`. -/
def demoF4 : Framework Unit := { demoF3 with cursor := .Hover 0 1 }

/-- Grid whose row 0 holds an unselectable item before a selectable one,
so the selectables index compacts: the selectable item sits at grid
coordinates `(1, 0)` but index position `(0, 0)`. -/
def bugState : State :=
  ⟨[⟨[⟨{ selectable := false }, .Length 2⟩, ⟨{}, .Length 2⟩], false, .Length 1⟩]⟩

/-- Framework over `bugState` hovering the single selectable item, with
a rendered frame area of 4 by 1 cells recorded. -/
def bugFramework : Framework Unit :=
  ⟨bugState.selectables, ⟨(), ()⟩, bugState, .Hover 0 0, [], some ⟨0, 0, 4, 1⟩⟩

/-- Grid with a single selectable item whose `deselect` hook rejects. -/
def rejState : State :=
  ⟨[⟨[⟨{ deselectAccept := false }, .Length 2⟩], false, .Length 1⟩]⟩

/-- Framework over `rejState` with that item selected and a frame area
recorded. -/
def rejFramework : Framework Unit :=
  ⟨rejState.selectables, ⟨(), ()⟩, rejState, .Selected 0 0, [], some ⟨0, 0, 4, 1⟩⟩

/-- Concrete framework used to witness the history round trip. -/
def c2F : Framework Bool :=
  ⟨[[(0, 0)]], ⟨false, true⟩, demoState, .Hover 3 4, [], none⟩

/-- `c2F` after a push followed by a mutation of every restored
component (grid, cursor, per-state store, selectables). -/
def c2Mut : Framework Bool :=
  ⟨[], ⟨true, false⟩, bugState, .None, (c2F.push_history).history, some ⟨1, 2, 3, 4⟩⟩

/-- Grid with one centered row of two unit-width items, used to witness
the centered-padding theorem. -/
def centeredState : State :=
  ⟨[⟨[⟨{}, .Length 1⟩, ⟨{}, .Length 1⟩], true, .Length 1⟩]⟩

/-- C3: on the cursor state machine, `select()` succeeds exactly from
`Hover(c, r)`, producing `Selected(c, r)`, and `deselect()` succeeds
exactly from `Selected(c, r)`, producing `Hover(c, r)`; from the other
two states each returns `CursorStateMismatch` and leaves the state
unchanged. -/
theorem select_deselect_transitions (x y : Nat) :
    (CursorState.Hover x y).select = (.ok (), .Selected x y) ∧
    CursorState.None.select = (.error .CursorStateMismatch, .None) ∧
    (CursorState.Selected x y).select = (.error .CursorStateMismatch, .Selected x y) ∧
    (CursorState.Selected x y).deselect = (.ok (), .Hover x y) ∧
    CursorState.None.deselect = (.error .CursorStateMismatch, .None) ∧
    (CursorState.Hover x y).deselect = (.error .CursorStateMismatch, .Hover x y) :=
  ⟨rfl, rfl, rfl, rfl, rfl, rfl⟩

/-- C9: `set_state(g)` replaces the grid with `g` and recomputes the
selectables index from `g`, leaving cursor, both context-store tiers,
the history stack and the cached frame area untouched. -/
theorem set_state_effect {σ : Type} (f : Framework σ) (g : State) :
    (f.set_state g).state = g ∧
    (f.set_state g).selectables = g.selectables ∧
    (f.set_state g).cursor = f.cursor ∧
    (f.set_state g).data.global = f.data.global ∧
    (f.set_state g).data.state = f.data.state ∧
    (f.set_state g).history = f.history ∧
    (f.set_state g).frame_area = f.frame_area :=
  ⟨rfl, rfl, rfl, rfl, rfl, rfl, rfl⟩

/-- C2: after `push_history()`, however the grid, cursor, per-state
store and selectables are mutated (any framework `f'` sharing the
pushed history), `revert_last_history()` returns `Ok` and restores all
four components to their values at push time, removing the snapshot. -/
theorem push_then_revert_restores {σ : Type} (f f' : Framework σ)
    (h : f'.history = (f.push_history).history) :
    (f'.revert_last_history).1 = .ok () ∧
    (f'.revert_last_history).2.state = f.state ∧
    (f'.revert_last_history).2.cursor = f.cursor ∧
    (f'.revert_last_history).2.data.state = f.data.state ∧
    (f'.revert_last_history).2.selectables = f.selectables ∧
    (f'.revert_last_history).2.history = f.history := by
  unfold Framework.push_history at h
  unfold Framework.revert_last_history
  rw [h]
  simp

/-- Closed witness for `push_then_revert_restores`: a concrete push,
mutation of every component, and revert over a `Bool`-valued store. -/
theorem push_then_revert_restores_witness :
    (c2Mut.revert_last_history).1 = .ok () ∧
    (c2Mut.revert_last_history).2.state = c2F.state ∧
    (c2Mut.revert_last_history).2.cursor = c2F.cursor ∧
    (c2Mut.revert_last_history).2.data.state = c2F.data.state ∧
    (c2Mut.revert_last_history).2.selectables = c2F.selectables ∧
    (c2Mut.revert_last_history).2.history = c2F.history :=
  push_then_revert_restores c2F c2Mut rfl

/-- C4: the exact walkthrough over `demoFramework` (selectables index
`[[(0,0),(1,0)], [(0,1)]]`, default hooks): `move(Right)` yields
`Hover(1,0)`, then `move(Down)` yields `Hover(0,1)`, then `select()`
yields `Selected(0,1)`, then `move(Left)` fails with `MoveSelected`
leaving the state unchanged, then `deselect()` yields `Hover(0,1)`. -/
theorem cursor_scenario :
    demoFramework.selectables = [[(0, 0), (1, 0)], [(0, 1)]] ∧
    demoFramework.cursor = .None ∧
    demoFramework.move .Right = some (.ok (), demoF1) ∧ demoF1.cursor = .Hover 1 0 ∧
    demoF1.move .Down = some (.ok (), demoF2) ∧ demoF2.cursor = .Hover 0 1 ∧
    demoF2.select = (.ok (), demoF3) ∧ demoF3.cursor = .Selected 0 1 ∧
    demoF3.move .Left = some (.error .MoveSelected, demoF3) ∧
    demoF3.deselect = (.ok (), demoF4) ∧ demoF4.cursor = .Hover 0 1 := by
  decide

/-- Every row the selectables generator pushes is nonempty. -/
theorem mem_selectablesAux_ne_nil (rows : List Row) :
    ∀ (y : Nat) (r : List (Nat × Nat)), r ∈ selectablesAux y rows → r ≠ [] := by
  induction rows with
  | nil => intro y r h; simp [selectablesAux] at h
  | cons row rest ih =>
    intro y r h
    simp only [selectablesAux] at h
    by_cases hemp : (rowSelectables y 0 row.items).isEmpty
    · rw [if_pos hemp] at h; exact ih _ _ h
    · rw [if_neg hemp] at h
      rcases List.mem_cons.mp h with h1 | h2
      · subst h1
        intro hnil
        rw [hnil] at hemp
        exact hemp rfl
      · exact ih _ _ h2

/-- The selectables index of any grid has no empty row. -/
theorem selectables_ne_nil (g : State) : ∀ r ∈ g.selectables, r ≠ [] :=
  fun r hr => mem_selectablesAux_ne_nil g.rows 0 r hr

/-- The clamp pass, applied to any hovering cursor over an index with no
empty row, succeeds and lands in bounds. -/
theorem move_check_hover (sel : List (List (Nat × Nat))) (hne : ∀ r ∈ sel, r ≠ [])
    (x y : Nat) :
    ∃ x1 y1, CursorState.move_check sel (.Hover x y) = some (.Hover x1 y1) ∧
      cursorInBounds sel (.Hover x1 y1) := by
  by_cases hsel : sel = []
  · subst hsel
    exact ⟨0, 0, rfl, by simp [cursorInBounds]⟩
  · have hlen : 0 < sel.length := List.length_pos.mpr hsel
    have hemp : sel.isEmpty = false := by
      cases sel with
      | nil => exact absurd rfl hsel
      | cons a l => rfl
    have hy1 : Nat.min y (sel.length - 1) < sel.length :=
      lt_of_le_of_lt (Nat.min_le_right y (sel.length - 1)) (Nat.sub_lt hlen Nat.one_pos)
    have hrow : sel.getD (Nat.min y (sel.length - 1)) [] ≠ [] := by
      apply hne
      rw [List.getD_eq_getElem?_getD, List.getElem?_eq_getElem hy1, Option.getD_some]
      exact List.getElem_mem hy1
    have hrowe : (sel.getD (Nat.min y (sel.length - 1)) []).isEmpty = false := by
      cases h : sel.getD (Nat.min y (sel.length - 1)) [] with
      | nil => exact absurd h hrow
      | cons a l => rfl
    have hrowe' : (sel[Nat.min y (sel.length - 1)]?.getD List.nil).isEmpty = false := by
      rw [← List.getD_eq_getElem?_getD]
      exact hrowe
    have hrlen : 0 < (sel.getD (Nat.min y (sel.length - 1)) []).length :=
      List.length_pos.mpr hrow
    refine ⟨Nat.min x ((sel.getD (Nat.min y (sel.length - 1)) []).length - 1),
      Nat.min y (sel.length - 1), ?_, ?_⟩
    · simp [CursorState.move_check, hemp, hrowe']
    · simp only [cursorInBounds, if_neg hsel]
      refine ⟨hy1, ?_⟩
      exact lt_of_le_of_lt
        (Nat.min_le_right x ((sel.getD (Nat.min y (sel.length - 1)) []).length - 1))
        (Nat.sub_lt hrlen Nat.one_pos)

/-- Any single `move` call over an index with no empty row returns
normally (no panic), and lands in bounds whenever it started there. -/
theorem move_some_inBounds (sel : List (List (Nat × Nat))) (hne : ∀ r ∈ sel, r ≠ [])
    (c : CursorState) (d : FrameworkDirection) :
    ∃ res c', c.move d sel = some (res, c') ∧
      (cursorInBounds sel c → cursorInBounds sel c') := by
  cases c with
  | Selected x y => cases d <;> exact ⟨_, _, rfl, fun hc => hc⟩
  | None =>
    cases d with
    | Up =>
      obtain ⟨x1, y1, hmc, hib⟩ := move_check_hover sel hne 0 0
      exact ⟨.ok (), _,
        by simp [CursorState.move, CursorState.dirStep, CursorState.up, hmc], fun _ => hib⟩
    | Down =>
      obtain ⟨x1, y1, hmc, hib⟩ := move_check_hover sel hne 0 usizeMax
      exact ⟨.ok (), _,
        by simp [CursorState.move, CursorState.dirStep, CursorState.down, hmc], fun _ => hib⟩
    | Left =>
      obtain ⟨x1, y1, hmc, hib⟩ := move_check_hover sel hne 0 0
      exact ⟨.ok (), _,
        by simp [CursorState.move, CursorState.dirStep, CursorState.left, hmc], fun _ => hib⟩
    | Right =>
      obtain ⟨x1, y1, hmc, hib⟩ := move_check_hover sel hne usizeMax 0
      exact ⟨.ok (), _,
        by simp [CursorState.move, CursorState.dirStep, CursorState.right, hmc], fun _ => hib⟩
  | Hover x y =>
    cases d with
    | Up =>
      obtain ⟨x1, y1, hmc, hib⟩ := move_check_hover sel hne x (y - 1)
      exact ⟨.ok (), _,
        by simp [CursorState.move, CursorState.dirStep, CursorState.up, hmc], fun _ => hib⟩
    | Down =>
      obtain ⟨x1, y1, hmc, hib⟩ := move_check_hover sel hne x ((y + 1) % usizeSize)
      exact ⟨.ok (), _,
        by simp [CursorState.move, CursorState.dirStep, CursorState.down, hmc], fun _ => hib⟩
    | Left =>
      obtain ⟨x1, y1, hmc, hib⟩ := move_check_hover sel hne (x - 1) y
      exact ⟨.ok (), _,
        by simp [CursorState.move, CursorState.dirStep, CursorState.left, hmc], fun _ => hib⟩
    | Right =>
      obtain ⟨x1, y1, hmc, hib⟩ := move_check_hover sel hne ((x + 1) % usizeSize) y
      exact ⟨.ok (), _,
        by simp [CursorState.move, CursorState.dirStep, CursorState.right, hmc], fun _ => hib⟩

/-- Iterating `move` preserves the in-bounds invariant. -/
theorem applyMoves_inBounds (sel : List (List (Nat × Nat))) (hne : ∀ r ∈ sel, r ≠ []) :
    ∀ (ds : List FrameworkDirection) (c : CursorState), cursorInBounds sel c →
      ∃ c', applyMoves sel ds c = some c' ∧ cursorInBounds sel c' := by
  intro ds
  induction ds with
  | nil => intro c hc; exact ⟨c, rfl, hc⟩
  | cons d ds ih =>
    intro c hc
    obtain ⟨res, c1, hm, hib⟩ := move_some_inBounds sel hne c d
    obtain ⟨c', hap, hib'⟩ := ih c1 (hib hc)
    refine ⟨c', ?_, hib'⟩
    simp [applyMoves, hm, hap]

/-- C1: over the selectables index of any grid, every sequence of `move`
calls starting from cursor `None` runs without panic, and after each
call (every prefix is itself such a sequence) the cursor is in bounds
for the index whenever not `None` — clamped below the row count and the
row's length — and reset to `(0, 0)` when the index is empty. -/
theorem move_sequence_in_bounds (g : State) (ds : List FrameworkDirection) :
    ∃ c', applyMoves g.selectables ds .None = some c' ∧ cursorInBounds g.selectables c' :=
  applyMoves_inBounds g.selectables (selectables_ne_nil g) ds .None (by simp [cursorInBounds])

/-- When a directional step succeeds its resulting raw state is `Hover`. -/
theorem dirStep_ok_hover (c : CursorState) (d : FrameworkDirection) :
    ∀ c1, c.dirStep d = (.ok (), c1) → c1.is_hover = true := by
  cases c <;> cases d <;> intro c1 h <;>
    simp only [CursorState.dirStep, CursorState.up, CursorState.down, CursorState.left,
      CursorState.right, Prod.mk.injEq] at h <;>
    first
    | (rw [← h.2]; rfl)
    | exact absurd h.1 (by simp)

/-- C7: over any selectables index containing no empty row, `move` from
any cursor state never reaches an abnormal exit (the `unreachable!`
branch or an underflowing subtraction, both modelled by `none`), and
whenever the directional step succeeds the raw state it produces is
`Hover`. -/
theorem move_total_no_panic (sel : List (List (Nat × Nat))) (hne : ∀ r ∈ sel, r ≠ [])
    (c : CursorState) (d : FrameworkDirection) :
    (∃ out, c.move d sel = some out) ∧
    (∀ c1, c.dirStep d = (.ok (), c1) → c1.is_hover = true) := by
  constructor
  · obtain ⟨res, c', hm, _⟩ := move_some_inBounds sel hne c d
    exact ⟨_, hm⟩
  · exact dirStep_ok_hover c d

/-- Closed witness for `move_total_no_panic` at a concrete index, state
and direction. -/
theorem move_total_no_panic_witness :
    (∃ out, CursorState.move .None .Right [[(0, 0)]] = some out) ∧
    (∀ c1, CursorState.dirStep .None .Right = (.ok (), c1) → c1.is_hover = true) :=
  move_total_no_panic [[(0, 0)]] (by decide) .None .Right

/-- The inner selectables loop written against `List.enumFrom`. -/
theorem rowSelectables_eq_spec (y : Nat) :
    ∀ (l : List RowItem) (x : Nat),
      rowSelectables y x l =
        (l.enumFrom x).filterMap fun q =>
          if q.2.item.selectable then some (q.1, y) else none := by
  intro l
  induction l with
  | nil => intro x; simp [rowSelectables]
  | cons it rest ih =>
    intro x
    simp only [rowSelectables, List.enumFrom, List.filterMap_cons]
    by_cases hs : it.item.selectable
    · simp [hs, ih]
    · simp [hs, ih]

/-- The outer selectables loop written against `List.enumFrom`. -/
theorem selectablesAux_eq_spec :
    ∀ (rows : List Row) (y : Nat),
      selectablesAux y rows =
        ((rows.enumFrom y).map fun p => rowSelectablesSpec p.1 p.2).filter
          fun r => !r.isEmpty := by
  intro rows
  induction rows with
  | nil => intro y; simp [selectablesAux]
  | cons row rest ih =>
    intro y
    have hr : rowSelectablesSpec y row = rowSelectables y 0 row.items := by
      rw [rowSelectables_eq_spec]
      simp [rowSelectablesSpec, List.enum]
    simp only [selectablesAux, List.enumFrom, List.map_cons, List.filter_cons, hr]
    by_cases hemp : (rowSelectables y 0 row.items).isEmpty
    · simp [hemp, ih]
    · simp [hemp, ih]

/-- The source selectables index equals its spec-side restatement. -/
theorem selectables_eq_spec (s : State) : s.selectables = s.selectablesSpec := by
  unfold State.selectables State.selectablesSpec
  rw [selectablesAux_eq_spec]
  simp [List.enum]

/-- Membership in the inner selectables loop pins the row coordinate,
bounds the column, and forces the addressed item to be selectable. -/
theorem mem_rowSelectables (y : Nat) :
    ∀ (l : List RowItem) (x a b : Nat), (a, b) ∈ rowSelectables y x l →
      b = y ∧ x ≤ a ∧ a - x < l.length ∧
        ((l.getD (a - x) defaultRowItem).item.selectable = true) := by
  intro l
  induction l with
  | nil => intro x a b h; simp [rowSelectables] at h
  | cons it rest ih =>
    intro x a b h
    simp only [rowSelectables] at h
    by_cases hs : it.item.selectable
    · rw [if_pos hs] at h
      rcases List.mem_cons.mp h with h1 | h2
      · have ha : a = x := congrArg Prod.fst h1
        have hb : b = y := congrArg Prod.snd h1
        subst ha
        refine ⟨hb, le_refl _, by simp, ?_⟩
        simp [hs]
      · obtain ⟨hb, hxa, hlt, hsel⟩ := ih (x + 1) a b h2
        refine ⟨hb, by omega, by simp only [List.length_cons]; omega, ?_⟩
        have hax : a - x = (a - (x + 1)) + 1 := by omega
        rw [hax, List.getD_cons_succ]
        exact hsel
    · rw [if_neg hs] at h
      obtain ⟨hb, hxa, hlt, hsel⟩ := ih (x + 1) a b h
      refine ⟨hb, by omega, by simp only [List.length_cons]; omega, ?_⟩
      have hax : a - x = (a - (x + 1)) + 1 := by omega
      rw [hax, List.getD_cons_succ]
      exact hsel

/-- Every row of the selectables index is the inner loop's output for a
grid row that exists. -/
theorem mem_selectablesAux (rows : List Row) :
    ∀ (y : Nat) (r : List (Nat × Nat)), r ∈ selectablesAux y rows →
      ∃ i, i < rows.length ∧ r = rowSelectables (y + i) 0 (rows.getD i defaultRow).items := by
  induction rows with
  | nil => intro y r h; simp [selectablesAux] at h
  | cons row rest ih =>
    intro y r h
    simp only [selectablesAux] at h
    by_cases hemp : (rowSelectables y 0 row.items).isEmpty
    · rw [if_pos hemp] at h
      obtain ⟨i, hi, hr⟩ := ih (y + 1) r h
      refine ⟨i + 1, by simp only [List.length_cons]; omega, ?_⟩
      rw [List.getD_cons_succ]
      rw [show y + (i + 1) = y + 1 + i by omega]
      exact hr
    · rw [if_neg hemp] at h
      rcases List.mem_cons.mp h with h1 | h2
      · exact ⟨0, by simp, by simpa using h1⟩
      · obtain ⟨i, hi, hr⟩ := ih (y + 1) r h2
        refine ⟨i + 1, by simp only [List.length_cons]; omega, ?_⟩
        rw [List.getD_cons_succ]
        rw [show y + (i + 1) = y + 1 + i by omega]
        exact hr

/-- The generated selectables index passes the bounds check. -/
theorem selectablesWF_true (s : State) : selectablesWF s = true := by
  unfold selectablesWF
  rw [List.all_eq_true]
  intro r hr
  obtain ⟨i, hi, hreq⟩ := mem_selectablesAux s.rows 0 r hr
  have hne := mem_selectablesAux_ne_nil s.rows 0 r hr
  rw [Bool.and_eq_true]
  constructor
  · cases r with
    | nil => exact absurd rfl hne
    | cons a l => rfl
  · rw [List.all_eq_true]
    intro xy hxy
    rw [hreq] at hxy
    obtain ⟨hb, -, hlt, hsel⟩ := mem_rowSelectables (0 + i) _ 0 xy.1 xy.2 hxy
    rw [Bool.and_eq_true, Bool.and_eq_true]
    have hb' : xy.2 = i := by omega
    refine ⟨⟨?_, ?_⟩, ?_⟩
    · rw [decide_eq_true_eq, hb']
      exact hi
    · rw [decide_eq_true_eq, hb']
      simpa using hlt
    · rw [hb']
      simpa using hsel

/-- C5: `selectables()` returns exactly, for each grid row in row order
with at least one selectable item, the `(column, row)` pairs of
precisely its selectable items in column order (unselectable items take
no slot, selectable-free rows are omitted), and every pair addresses an
existing grid slot holding a selectable item, with no empty row in the
index. -/
theorem selectables_characterization (s : State) :
    s.selectables = s.selectablesSpec ∧ selectablesWF s = true :=
  ⟨selectables_eq_spec s, selectablesWF_true s⟩

/-- `Framework::deselect` can only ever write the cursor; every other
component is left as it was. -/
theorem deselect_only_cursor {σ : Type} (f : Framework σ) :
    ∃ c, (f.deselect).2 = { f with cursor := c } := by
  unfold Framework.deselect
  cases h : f.cursor.selected f.selectables with
  | none => exact ⟨f.cursor, rfl⟩
  | some xy =>
    cases xy with
    | mk x y =>
      by_cases hacc : (f.state.get x y).deselectAccept
      · exact ⟨(f.cursor.deselect).2, by simp [hacc]⟩
      · exact ⟨f.cursor, by simp [hacc]⟩

/-- The inner mouse loop finds nothing when the click misses every
chunk addressed by the row. -/
theorem findHitRow_eq_none (chunks : List (List Rect)) (col row : Nat) (row_no : Nat) :
    ∀ (rs : List (Nat × Nat)) (col_no : Nat),
      (∀ xy ∈ rs,
        ((chunks.getD xy.2 []).getD xy.1 ⟨0, 0, 0, 0⟩).intersects ⟨col, row, 1, 1⟩ = false) →
      findHitRow chunks col row row_no col_no rs = none := by
  intro rs
  induction rs with
  | nil => intro c h; rfl
  | cons xy rest ih =>
    intro c h
    have h0 := h xy (List.mem_cons_self _ _)
    simp only [findHitRow, h0, Bool.false_eq_true, if_false]
    exact ih (c + 1) fun z hz => h z (List.mem_cons_of_mem _ hz)

/-- The outer mouse loop finds nothing when the click misses every
selectable item's chunk. -/
theorem findHitRows_eq_none (chunks : List (List Rect)) (col row : Nat) :
    ∀ (sel : List (List (Nat × Nat))) (row_no : Nat),
      (∀ rs ∈ sel, ∀ xy ∈ rs,
        ((chunks.getD xy.2 []).getD xy.1 ⟨0, 0, 0, 0⟩).intersects ⟨col, row, 1, 1⟩ = false) →
      findHitRows chunks col row row_no sel = none := by
  intro sel
  induction sel with
  | nil => intro r h; rfl
  | cons rs rest ih =>
    intro r h
    simp only [findHitRows]
    rw [findHitRow_eq_none chunks col row r rs 0 (h rs (List.mem_cons_self _ _))]
    exact ih (r + 1) fun z hz => h z (List.mem_cons_of_mem _ hz)

/-- C10: once a frame area has been recorded, a click that lands outside
every selectable item's rectangle is reported as handled (`true`) and
resets the cursor to `None` unconditionally — the deselect hook is
consulted but its rejection cannot prevent the reset, and no item
handler contributes to the result. -/
theorem mouse_event_outside_resets {σ : Type} (f : Framework σ) (area : Rect)
    (col row : Nat) (ha : f.frame_area = some area)
    (hmiss : ∀ rs ∈ f.selectables, ∀ xy ∈ rs,
      (((f.state.get_chunks area).getD xy.2 []).getD xy.1 ⟨0, 0, 0, 0⟩).intersects
        ⟨col, row, 1, 1⟩ = false) :
    f.mouse_event col row = (true, { f with cursor := .None }) := by
  unfold Framework.mouse_event
  rw [ha]
  simp only []
  rw [findHitRows_eq_none (f.state.get_chunks area) col row f.selectables 0 hmiss]
  obtain ⟨c, hc⟩ := deselect_only_cursor f
  rw [hc]
  simp [ha]

/-- Closed witness for `mouse_event_outside_resets`: the selected item's
deselect hook rejects, yet the cursor is still reset to `None` and the
click reported handled. -/
theorem mouse_event_outside_resets_witness :
    rejFramework.mouse_event 50 50 = (true, { rejFramework with cursor := .None }) ∧
    rejFramework.cursor = .Selected 0 0 ∧
    (rejState.get 0 0).deselectAccept = false :=
  ⟨mouse_event_outside_resets rejFramework ⟨0, 0, 4, 1⟩ 50 50 rfl (by decide), rfl, rfl⟩

/-- C6 fails on the code: over `bugFramework` the cursor hovers the
single selectable item (index position `(0, 0)`, grid slot `(1, 0)`,
rectangle `⟨2, 0, 2, 1⟩`), its select hook accepts, a frame area is
recorded, and the click `(2, 0)` lands inside that rectangle — yet
`mouse_event` leaves the cursor at `Hover (0, 0)` instead of promoting
it to `Selected (0, 0)`, because the source compares the hovered item's
grid coordinates `(1, 0)` with its index position `(0, 0)`. -/
theorem mouse_event_hover_click_bug :
    bugFramework.selectables = [[(1, 0)]] ∧
    bugFramework.cursor = .Hover 0 0 ∧
    (bugState.get 1 0).selectAccept = true ∧
    ((bugState.get_chunks ⟨0, 0, 4, 1⟩).getD 0 []).getD 1 ⟨0, 0, 0, 0⟩ = ⟨2, 0, 2, 1⟩ ∧
    Rect.intersects ⟨2, 0, 2, 1⟩ ⟨2, 0, 1, 1⟩ = true ∧
    bugFramework.mouse_event 2 0 = (true, bugFramework) ∧
    (bugFramework.mouse_event 2 0).2.cursor ≠ .Selected 0 0 := by
  decide

/-- `splitLengths` yields one segment per constraint. -/
theorem splitLengths_length (total : Nat) :
    ∀ (cs : List Constraint) (rem : Nat), (splitLengths total rem cs).length = cs.length := by
  intro cs
  induction cs with
  | nil => intro rem; rfl
  | cons c cs ih =>
    intro rem
    cases cs with
    | nil => rfl
    | cons c2 cs2 =>
      simp only [splitLengths, List.length_cons]
      rw [ih]
      simp

/-- Unfolding equation of `splitLengths` for a non-final constraint. -/
theorem splitLengths_cons_ne_nil (total rem : Nat) (c : Constraint) (cs : List Constraint)
    (h : cs ≠ []) :
    splitLengths total rem (c :: cs) =
      Nat.min (c.apply total) rem ::
        splitLengths total (rem - Nat.min (c.apply total) rem) cs := by
  cases cs with
  | nil => exact absurd rfl h
  | cons c2 cs2 => rfl

/-- When the resolved widths fit into the remaining space, every
non-final constraint receives exactly its resolved width and the final
one the remainder. -/
theorem splitLengths_fit (total : Nat) :
    ∀ (ws : List Constraint) (clast : Constraint) (rem : Nat),
      (ws.map fun c => c.apply total).sum ≤ rem →
      splitLengths total rem (ws ++ [clast]) =
        (ws.map fun c => c.apply total) ++ [rem - (ws.map fun c => c.apply total).sum] := by
  intro ws
  induction ws with
  | nil => intro clast rem h; simp [splitLengths]
  | cons c ws ih =>
    intro clast rem h
    simp only [List.map_cons, List.sum_cons] at h
    have hle : c.apply total ≤ rem := le_trans (Nat.le_add_right _ _) h
    have hmin : Nat.min (c.apply total) rem = c.apply total := Nat.min_eq_left hle
    rw [List.cons_append, splitLengths_cons_ne_nil total rem c (ws ++ [clast]) (by simp), hmin]
    rw [ih clast (rem - c.apply total) (by omega)]
    simp only [List.map_cons, List.sum_cons, List.cons_append]
    rw [Nat.sub_sub]

/-- `stackH` yields one rectangle per segment. -/
theorem stackH_length (band : Rect) :
    ∀ (ws : List Nat) (x0 : Nat), (stackH band x0 ws).length = ws.length := by
  intro ws
  induction ws with
  | nil => intro x0; rfl
  | cons w ws ih =>
    intro x0
    simp only [stackH, List.length_cons]
    rw [ih]

/-- `stackV` yields one rectangle per segment. -/
theorem stackV_length (area : Rect) :
    ∀ (hs : List Nat) (y0 : Nat), (stackV area y0 hs).length = hs.length := by
  intro hs
  induction hs with
  | nil => intro y0; rfl
  | cons hh hs ih =>
    intro y0
    simp only [stackV, List.length_cons]
    rw [ih]

/-- `stackH` distributes over append, the second part starting after the
summed widths of the first. -/
theorem stackH_append (band : Rect) :
    ∀ (l1 l2 : List Nat) (x0 : Nat),
      stackH band x0 (l1 ++ l2) = stackH band x0 l1 ++ stackH band (x0 + l1.sum) l2 := by
  intro l1
  induction l1 with
  | nil => intro l2 x0; simp [stackH]
  | cons w ws ih =>
    intro l2 x0
    simp only [List.cons_append, stackH, List.sum_cons, List.append_eq, ih]
    rw [Nat.add_assoc]

/-- The first rectangle of a nonempty `stackH` starts at the origin. -/
theorem stackH_head (band : Rect) (x0 : Nat) (ws : List Nat) (h : ws ≠ []) :
    ∃ first, (stackH band x0 ws).head? = some first ∧ first.x = x0 := by
  cases ws with
  | nil => exact absurd rfl h
  | cons w ws => exact ⟨⟨x0, band.y, w, band.height⟩, rfl, rfl⟩

/-- The last rectangle of a nonempty `stackH` ends at the origin plus
the summed widths. -/
theorem stackH_getLast_right (band : Rect) :
    ∀ (ws : List Nat) (x0 : Nat), ws ≠ [] →
      ∃ l, (stackH band x0 ws).getLast? = some l ∧ l.x + l.width = x0 + ws.sum := by
  intro ws
  induction ws with
  | nil => intro x0 h; exact absurd rfl h
  | cons w ws ih =>
    intro x0 h
    cases ws with
    | nil =>
      refine ⟨⟨x0, band.y, w, band.height⟩, rfl, ?_⟩
      simp
    | cons w2 ws2 =>
      obtain ⟨l, hl, he⟩ := ih (x0 + w) (by simp)
      refine ⟨l, ?_, ?_⟩
      · show (⟨x0, band.y, w, band.height⟩ ::
          stackH band (x0 + w) (w2 :: ws2)).getLast? = some l
        rw [show stackH band (x0 + w) (w2 :: ws2) =
          ⟨x0 + w, band.y, w2, band.height⟩ :: stackH band (x0 + w + w2) ws2 from rfl]
        rw [List.getLast?_cons_cons]
        exact hl
      · simp only [List.sum_cons] at he ⊢
        omega

/-- Every band `stackV` produces spans the full width of the area. -/
theorem mem_stackV (area : Rect) :
    ∀ (hs : List Nat) (y0 : Nat) (r : Rect), r ∈ stackV area y0 hs →
      r.x = area.x ∧ r.width = area.width := by
  intro hs
  induction hs with
  | nil => intro y0 r h; simp [stackV] at h
  | cons hh hs ih =>
    intro y0 r h
    simp only [stackV] at h
    rcases List.mem_cons.mp h with h1 | h2
    · rw [h1]; exact ⟨rfl, rfl⟩
    · exact ih _ _ h2

/-- Index into a zip from indexes into the parts. -/
theorem zip_getElem_some {α β : Type} :
    ∀ (l1 : List α) (l2 : List β) (i : Nat) (a : α) (b : β),
      l1[i]? = some a → l2[i]? = some b → (l1.zip l2)[i]? = some (a, b) := by
  intro l1
  induction l1 with
  | nil => intro l2 i a b h1 h2; simp at h1
  | cons x l1 ih =>
    intro l2 i a b h1 h2
    cases l2 with
    | nil => simp at h2
    | cons y l2 =>
      cases i with
      | zero =>
        simp only [List.getElem?_cons_zero, Option.some.injEq] at h1 h2
        simp [List.zip_cons_cons, h1, h2]
      | succ n =>
        simp only [List.getElem?_cons_succ] at h1 h2
        simp only [List.zip_cons_cons, List.getElem?_cons_succ]
        exact ih l2 n a b h1 h2

/-- Row `i` of the chunk table is `rowChunks` of the `i`-th band and the
`i`-th grid row. -/
theorem get_chunks_getElem (s : State) (area : Rect) (i : Nat) (band : Rect) (row : Row)
    (hband : ((((layoutSplitV area
        (Constraint.Length 0 :: (s.rows.map Row.height ++ [Constraint.Length 0]))).drop 1).take
          s.rows.length))[i]? = some band)
    (hrow : s.rows[i]? = some row) :
    (s.get_chunks area)[i]? = some (rowChunks area band row) := by
  unfold State.get_chunks
  rw [List.getElem?_map, zip_getElem_some _ _ _ _ _ hband hrow]
  rfl

/-- The chunk row of a centered grid row whose resolved widths fit:
its first rectangle starts after the computed half padding and its last
one ends after all the item widths. -/
theorem rowChunks_centered (area band : Rect) (row : Row)
    (hbw : band.width = area.width)
    (hcen : row.centered = true) (hne : row.items ≠ [])
    (hS : (row.items.map fun it => it.width.apply area.width).sum ≤ area.width) :
    ∃ first l, (rowChunks area band row).head? = some first ∧
      (rowChunks area band row).getLast? = some l ∧
      first.x = band.x +
        (area.width - (row.items.map fun it => it.width.apply area.width).sum) / 2 ∧
      l.x + l.width = band.x +
        (area.width - (row.items.map fun it => it.width.apply area.width).sum) / 2 +
        (row.items.map fun it => it.width.apply area.width).sum := by
  have hbW : (area.width - (row.items.map fun it => it.width.apply area.width).sum) / 2 ≤
      area.width := by omega
  have happly : ((row.items.map RowItem.width).map fun c => c.apply area.width) =
      row.items.map fun it => it.width.apply area.width := by
    rw [List.map_map]
    rfl
  have hmapne : (row.items.map fun it => it.width.apply area.width) ≠ [] := by
    intro heq
    exact hne (List.map_eq_nil_iff.mp heq)
  have hminb : Nat.min
      ((Constraint.Length
        ((area.width - (row.items.map fun it => it.width.apply area.width).sum) / 2)).apply
          area.width) area.width =
      (area.width - (row.items.map fun it => it.width.apply area.width).sum) / 2 := by
    show Nat.min (Nat.min area.width
      ((area.width - (row.items.map fun it => it.width.apply area.width).sum) / 2))
      area.width = _
    simp only [Nat.min_def]
    split_ifs <;> omega
  have h1 : splitLengths area.width area.width
      (Constraint.Length
        ((area.width - (row.items.map fun it => it.width.apply area.width).sum) / 2) ::
        (row.items.map RowItem.width ++ [Constraint.Length 0])) =
      ((area.width - (row.items.map fun it => it.width.apply area.width).sum) / 2) ::
        ((row.items.map fun it => it.width.apply area.width) ++
          [area.width -
            (area.width - (row.items.map fun it => it.width.apply area.width).sum) / 2 -
            (row.items.map fun it => it.width.apply area.width).sum]) := by
    rw [splitLengths_cons_ne_nil _ _ _ _ (by simp), hminb]
    rw [splitLengths_fit area.width (row.items.map RowItem.width) (Constraint.Length 0) _
      (by rw [happly]; omega)]
    rw [happly]
  have h2 : rowChunks area band row =
      stackH band
        (band.x + (area.width - (row.items.map fun it => it.width.apply area.width).sum) / 2)
        (row.items.map fun it => it.width.apply area.width) := by
    unfold rowChunks
    rw [if_pos hcen]
    unfold layoutSplitH
    rw [hbw, h1]
    rw [show stackH band band.x
        (((area.width - (row.items.map fun it => it.width.apply area.width).sum) / 2) ::
          ((row.items.map fun it => it.width.apply area.width) ++
            [area.width -
              (area.width - (row.items.map fun it => it.width.apply area.width).sum) / 2 -
              (row.items.map fun it => it.width.apply area.width).sum])) =
      (⟨band.x, band.y,
        (area.width - (row.items.map fun it => it.width.apply area.width).sum) / 2,
        band.height⟩ : Rect) ::
        stackH band
          (band.x +
            (area.width - (row.items.map fun it => it.width.apply area.width).sum) / 2)
          ((row.items.map fun it => it.width.apply area.width) ++
            [area.width -
              (area.width - (row.items.map fun it => it.width.apply area.width).sum) / 2 -
              (row.items.map fun it => it.width.apply area.width).sum]) from rfl]
    rw [List.drop_succ_cons, List.drop_zero, stackH_append]
    have hlen : (stackH band
        (band.x + (area.width - (row.items.map fun it => it.width.apply area.width).sum) / 2)
        (row.items.map fun it => it.width.apply area.width)).length = row.items.length := by
      rw [stackH_length, List.length_map]
    rw [← hlen, List.take_left]
  obtain ⟨first, hh, hfx⟩ := stackH_head band _ _ hmapne
  obtain ⟨l, hl, he⟩ := stackH_getLast_right band _ _ hmapne
  refine ⟨first, l, ?_, ?_, ?_, ?_⟩
  · rw [h2]; exact hh
  · rw [h2]; exact hl
  · exact hfx
  · exact he

/-- C8: in the chunk table of `get_chunks(area)`, for every centered row
whose resolved item widths fit into the area width, the leading padding
(from the area's left edge to the first item rectangle) equals the
integer half of the slack `(width - sum of item widths) / 2`, and the
trailing padding (from the last item rectangle's right edge to the
area's right edge) exceeds it by at most one unit. -/
theorem centered_row_padding (s : State) (area : Rect) (i : Nat) (row : Row)
    (hrow : s.rows[i]? = some row) (hcen : row.centered = true) (hne : row.items ≠ [])
    (hS : (row.items.map fun it => it.width.apply area.width).sum ≤ area.width) :
    ∃ rects first l, (s.get_chunks area)[i]? = some rects ∧
      rects.head? = some first ∧ rects.getLast? = some l ∧
      first.x - area.x =
        (area.width - (row.items.map fun it => it.width.apply area.width).sum) / 2 ∧
      first.x - area.x ≤ area.x + area.width - (l.x + l.width) ∧
      area.x + area.width - (l.x + l.width) - (first.x - area.x) ≤ 1 := by
  have hi : i < s.rows.length := by
    by_contra hgt
    rw [List.getElem?_eq_none (by omega)] at hrow
    exact Option.noConfusion hrow
  have hbands_len :
      ((((layoutSplitV area
        (Constraint.Length 0 :: (s.rows.map Row.height ++ [Constraint.Length 0]))).drop 1).take
          s.rows.length)).length = s.rows.length := by
    unfold layoutSplitV
    rw [List.length_take, List.length_drop, stackV_length, splitLengths_length]
    simp only [List.length_cons, List.length_append, List.length_map]
    omega
  have hib : i < ((((layoutSplitV area
      (Constraint.Length 0 :: (s.rows.map Row.height ++ [Constraint.Length 0]))).drop 1).take
        s.rows.length)).length := by
    rw [hbands_len]; exact hi
  have hbandeq := List.getElem?_eq_getElem hib
  have hmem := List.getElem_mem hib
  have hmem2 := List.mem_of_mem_drop (List.mem_of_mem_take hmem)
  unfold layoutSplitV at hmem2
  obtain ⟨hbx, hbw⟩ := mem_stackV area _ _ _ hmem2
  have hchunks := get_chunks_getElem s area i _ row hbandeq hrow
  obtain ⟨first, l, hh, hl, hfx, hlast⟩ :=
    rowChunks_centered area _ row hbw hcen hne hS
  refine ⟨_, first, l, hchunks, hh, hl, ?_, ?_, ?_⟩
  · rw [hfx, hbx]; omega
  · rw [hfx, hlast, hbx]; omega
  · rw [hfx, hlast, hbx]; omega

/-- Closed witness for `centered_row_padding`: one centered row of two
unit-wide items in a five-cell-wide area, leading padding 1, trailing
padding 2. -/
theorem centered_row_padding_witness :
    ∃ rects first l, (centeredState.get_chunks ⟨0, 0, 5, 1⟩)[0]? = some rects ∧
      rects.head? = some first ∧ rects.getLast? = some l ∧
      first.x - (0 : Nat) =
        (5 - ((centeredState.rows.getD 0 defaultRow).items.map
          fun it => it.width.apply 5).sum) / 2 ∧
      first.x - (0 : Nat) ≤ 0 + 5 - (l.x + l.width) ∧
      0 + 5 - (l.x + l.width) - (first.x - (0 : Nat)) ≤ 1 := by
  have h := centered_row_padding centeredState ⟨0, 0, 5, 1⟩ 0
    ⟨[⟨{}, .Length 1⟩, ⟨{}, .Length 1⟩], true, .Length 1⟩ rfl rfl (by decide) (by decide)
  simpa using h

end TuiAdditions
